import Mathlib

/-!
Verification of the stale-bot issue-audit agent (Go sources: `agent.go`,
`util.go`, the orchestrator `main` file and the configuration file).

The Go code is shallowly embedded:

* decoded RFC3339 instants are modelled as integers (`Timestamp`); `float64`
  day-counts computed via `Duration.Hours() / 24` are modelled exactly in `ℚ`
  with the instant unit taken to be one hour;
* the dynamic `map[string]any` issue payload is modelled by the decoded
  record `IssueSnapshot` (the decoding conventions are noted at each field);
* `sort.Slice` (Go ≥ 1.19: pattern-defeating quicksort, stdlib
  `sort/zsortfunc.go`) is transcribed function by function over arrays;
  each Go `for` loop is written as a fuel-indexed recursion whose fuel
  argument is an upper bound on the loop's trip count, and every data
  mutation goes through the single primitive `swapIx`;
* network effects (`httpClient.Do`, GraphQL fetch, collaborator fetch) are
  passed in as explicit oracles / result values, and the process-global
  API-call counter and maintainer cache are threaded as explicit state.
-/

/-! ### Basic model: strings, instants, bot detection -/

/-- Decoded instant (`time.Time` after `time.Parse(time.RFC3339, ·)`),
measured in hours so that `Duration.Hours()` is the plain difference. -/
abbrev Timestamp := Int

/-- Go `strings.Contains s sub`: `sub` occurs as a contiguous substring. -/
def strContains (s sub : String) : Bool :=
  decide (sub.data <:+: s.data)

/-- Constant `BOT_ALERT_SIGNATURE` from `agent.go`. -/
def BOT_ALERT_SIGNATURE : String :=
  "**Notification:** The author has updated the issue description"

/-- Constant `BOT_NAME` from `agent.go`. -/
def BOT_NAME : String := "adk-bot"

/-- Constant `STALE_LABEL_NAME` from the configuration file. -/
def STALE_LABEL_NAME : String := "stale"

/-- Configuration default `STALE_HOURS_THRESHOLD` (hours). -/
def STALE_HOURS_THRESHOLD : ℚ := 168

/-- Configuration default `CLOSE_HOURS_AFTER_STALE_THRESHOLD` (hours). -/
def CLOSE_HOURS_AFTER_STALE_THRESHOLD : ℚ := 168

/-- The `isBot` closure in `buildHistoryTimeline`:
`actor == "" || strings.HasSuffix(actor, "[bot]") || actor == BOT_NAME`. -/
def isBot (actor : String) : Bool :=
  actor == "" || actor.endsWith "[bot]" || actor == BOT_NAME

/-! ### Go `sort.Slice` (stdlib pdqsort, `sort/zsortfunc.go`)

All functions are generic in the element type and the `less` closure, as in
the stdlib's `lessSwap` interface.  Out-of-range accesses (which would panic
in Go and never occur on the reachable paths) read a default element or
leave the array unchanged. -/

/-- Element read `data[i]`; out of range yields `default` (Go would panic). -/
def getIx [Inhabited α] (xs : Array α) (i : Nat) : α :=
  xs.getD i default

/-- The `data.Swap(i, j)` primitive; out of range is the identity (Go would
panic). -/
def swapIx (xs : Array α) (i j : Nat) : Array α :=
  if h : i < xs.size ∧ j < xs.size then xs.swap ⟨i, h.1⟩ ⟨j, h.2⟩ else xs

/-- Inner loop of `insertionSort_func`:
`for j := i; j > a && data.Less(j, j-1); j-- { data.Swap(j, j-1) }`. -/
def insInner [Inhabited α] (less : α → α → Bool) (a : Nat) :
    Array α → Nat → Nat → Array α
  | xs, _, 0 => xs
  | xs, j, fuel+1 =>
    if a < j ∧ less (getIx xs j) (getIx xs (j-1)) then
      insInner less a (swapIx xs j (j-1)) (j-1) fuel
    else xs

/-- Outer loop of `insertionSort_func`: `for i := a + 1; i < b; i++`. -/
def insOuter [Inhabited α] (less : α → α → Bool) (a b : Nat) :
    Array α → Nat → Nat → Array α
  | xs, _, 0 => xs
  | xs, i, fuel+1 =>
    if i < b then insOuter less a b (insInner less a xs i i) (i+1) fuel
    else xs

/-- Go `insertionSort_func(data, a, b)`. -/
def insertionSortA [Inhabited α] (less : α → α → Bool) (xs : Array α)
    (a b : Nat) : Array α :=
  insOuter less a b xs (a+1) b

/-- Go `siftDown_func(data, lo, hi, first)` (the implicit `for` walk from
`root := lo`). -/
def siftDownLoop [Inhabited α] (less : α → α → Bool) (hi first : Nat) :
    Array α → Nat → Nat → Array α
  | xs, _, 0 => xs
  | xs, root, fuel+1 =>
    let child := 2*root + 1
    if child ≥ hi then xs
    else
      let child :=
        if child + 1 < hi ∧
            less (getIx xs (first+child)) (getIx xs (first+child+1)) then
          child + 1
        else child
      if ¬ less (getIx xs (first+root)) (getIx xs (first+child)) then xs
      else siftDownLoop less hi first (swapIx xs (first+root) (first+child))
        child fuel

/-- Go `siftDown_func` entry point. -/
def siftDownA [Inhabited α] (less : α → α → Bool) (xs : Array α)
    (lo hi first : Nat) : Array α :=
  siftDownLoop less hi first xs lo (hi + 1)

/-- Heap-construction loop of `heapSort_func`:
`for i := (hi - 1) / 2; i >= 0; i--`. -/
def heapBuildLoop [Inhabited α] (less : α → α → Bool) (hi first : Nat) :
    Array α → Nat → Array α
  | xs, 0 => siftDownA less xs 0 hi first
  | xs, i+1 => heapBuildLoop less hi first (siftDownA less xs (i+1) hi first) i

/-- Pop loop of `heapSort_func`:
`for i := hi - 1; i >= 0; i-- { Swap(first, first+i); siftDown(lo, i, first) }`. -/
def heapPopLoop [Inhabited α] (less : α → α → Bool) (first : Nat) :
    Array α → Nat → Array α
  | xs, 0 => swapIx xs first first
  | xs, i+1 =>
    heapPopLoop less first
      (siftDownA less (swapIx xs first (first+i+1)) 0 (i+1) first) i

/-- Go `heapSort_func(data, a, b)`. -/
def heapSortA [Inhabited α] (less : α → α → Bool) (xs : Array α)
    (a b : Nat) : Array α :=
  let first := a
  let hi := b - a
  let xs := heapBuildLoop less hi first xs ((hi - 1) / 2)
  if hi = 0 then xs else heapPopLoop less first xs (hi - 1)

/-- Go `reverseRange_func(data, a, b)`. -/
def reverseRangeLoop : Array α → Nat → Nat → Nat → Array α
  | xs, _, _, 0 => xs
  | xs, i, j, fuel+1 =>
    if i < j then reverseRangeLoop (swapIx xs i j) (i+1) (j-1) fuel else xs

/-- Go `reverseRange_func` entry point. -/
def reverseRangeA (xs : Array α) (a b : Nat) : Array α :=
  reverseRangeLoop xs a (b-1) b

/-- One step of the Go 64-bit `xorshift` generator used by
`breakPatterns_func`. -/
def xorshiftNext (r : Nat) : Nat :=
  let r := (r ^^^ (r <<< 13)) % 2^64
  let r := (r ^^^ (r >>> 7)) % 2^64
  (r ^^^ (r <<< 17)) % 2^64

/-- Go `bits.Len` on a nonnegative value. -/
def bitsLen (n : Nat) : Nat :=
  if n = 0 then 0 else Nat.log2 n + 1

/-- Go `nextPowerOfTwo(length)` from the stdlib sort. -/
def nextPowerOfTwo (length : Nat) : Nat :=
  1 <<< bitsLen length

/-- Go `breakPatterns_func(data, a, b)` (three random swaps; the loop of three
iterations is unrolled with the xorshift state threaded through). -/
def breakPatternsA (xs : Array α) (a b : Nat) : Array α :=
  let length := b - a
  if length ≥ 8 then
    let modulus := nextPowerOfTwo length
    let idx := a + (length/4)*2 - 1
    let pick := fun (r : Nat) =>
      let other := r &&& (modulus - 1)
      if other ≥ length then other - length else other
    let r1 := xorshiftNext length
    let r2 := xorshiftNext r1
    let r3 := xorshiftNext r2
    let xs := swapIx xs (idx - 1) (a + pick r1)
    let xs := swapIx xs idx (a + pick r2)
    swapIx xs (idx + 1) (a + pick r3)
  else xs

/-- The three-valued `sortedHint` of the stdlib sort. -/
inductive SortHint where
  | increasing
  | decreasing
  | unknownHint
deriving DecidableEq, Repr

/-- Go `order2_func(data, a, b, &swaps)`. -/
def order2A [Inhabited α] (less : α → α → Bool) (xs : Array α)
    (a b swaps : Nat) : Nat × Nat × Nat :=
  if less (getIx xs b) (getIx xs a) then (b, a, swaps + 1) else (a, b, swaps)

/-- Go `median_func(data, a, b, c, &swaps)`: returns `(median index, swaps)`. -/
def medianA [Inhabited α] (less : α → α → Bool) (xs : Array α)
    (a b c swaps : Nat) : Nat × Nat :=
  let (a, b, swaps) := order2A less xs a b swaps
  let (b, _, swaps) := order2A less xs b c swaps
  let (_, b, swaps) := order2A less xs a b swaps
  (b, swaps)

/-- Go `medianAdjacent_func(data, a, &swaps)`. -/
def medianAdjacentA [Inhabited α] (less : α → α → Bool) (xs : Array α)
    (a swaps : Nat) : Nat × Nat :=
  medianA less xs (a-1) a (a+1) swaps

/-- Go `choosePivot_func(data, a, b)`; `shortestNinther = 50`, `maxSwaps = 12`. -/
def choosePivotA [Inhabited α] (less : α → α → Bool) (xs : Array α)
    (a b : Nat) : Nat × SortHint :=
  let l := b - a
  let i := a + l/4*1
  let j := a + l/4*2
  let k := a + l/4*3
  let (j, swaps) :=
    if l ≥ 8 then
      if l ≥ 50 then
        let (i, swaps) := medianAdjacentA less xs i 0
        let (j, swaps) := medianAdjacentA less xs j swaps
        let (k, swaps) := medianAdjacentA less xs k swaps
        medianA less xs i j k swaps
      else
        medianA less xs i j k 0
    else (j, 0)
  if swaps = 0 then (j, SortHint.increasing)
  else if swaps = 12 then (j, SortHint.decreasing)
  else (j, SortHint.unknownHint)

/-- Index scan `for i <= j && data.Less(i, a) { i++ }` of `partition_func`
(`xs` is not mutated; returns the final `i`). -/
def scanUp [Inhabited α] (less : α → α → Bool) (xs : Array α)
    (aIdx j : Nat) : Nat → Nat → Nat
  | i, 0 => i
  | i, fuel+1 =>
    if i ≤ j ∧ less (getIx xs i) (getIx xs aIdx) then
      scanUp less xs aIdx j (i+1) fuel
    else i

/-- Index scan `for i <= j && !data.Less(j, a) { j-- }` of `partition_func`. -/
def scanDown [Inhabited α] (less : α → α → Bool) (xs : Array α)
    (aIdx i : Nat) : Nat → Nat → Nat
  | j, 0 => j
  | j, fuel+1 =>
    if i ≤ j ∧ ¬ less (getIx xs j) (getIx xs aIdx) then
      scanDown less xs aIdx i (j-1) fuel
    else j

/-- Main exchange loop of `partition_func`. -/
def partMain [Inhabited α] (less : α → α → Bool) (aIdx b : Nat) :
    Array α → Nat → Nat → Nat → Array α × Nat
  | xs, _, j, 0 => (xs, j)
  | xs, i, j, fuel+1 =>
    let i := scanUp less xs aIdx j i b
    let j := scanDown less xs aIdx i j b
    if i > j then (xs, j)
    else partMain less aIdx b (swapIx xs i j) (i+1) (j-1) fuel

/-- Go `partition_func(data, a, b, pivot)`: returns
`(array, newpivot, alreadyPartitioned)`. -/
def partitionA [Inhabited α] (less : α → α → Bool) (xs0 : Array α)
    (a b pivot : Nat) : Array α × Nat × Bool :=
  let xs := swapIx xs0 a pivot
  let i := scanUp less xs a (b-1) (a+1) b
  let j := scanDown less xs a i (b-1) b
  if i > j then (swapIx xs j a, j, true)
  else
    let xs := swapIx xs i j
    let p := partMain less a b xs (i+1) (j-1) b
    (swapIx p.1 p.2 a, p.2, false)

/-- Index scan `for i <= j && !data.Less(a, i) { i++ }` of
`partitionEqual_func`. -/
def scanUpEq [Inhabited α] (less : α → α → Bool) (xs : Array α)
    (aIdx j : Nat) : Nat → Nat → Nat
  | i, 0 => i
  | i, fuel+1 =>
    if i ≤ j ∧ ¬ less (getIx xs aIdx) (getIx xs i) then
      scanUpEq less xs aIdx j (i+1) fuel
    else i

/-- Index scan `for i <= j && data.Less(a, j) { j-- }` of
`partitionEqual_func`. -/
def scanDownEq [Inhabited α] (less : α → α → Bool) (xs : Array α)
    (aIdx i : Nat) : Nat → Nat → Nat
  | j, 0 => j
  | j, fuel+1 =>
    if i ≤ j ∧ less (getIx xs aIdx) (getIx xs j) then
      scanDownEq less xs aIdx i (j-1) fuel
    else j

/-- Exchange loop of `partitionEqual_func`; returns `(array, i)`. -/
def partEqMain [Inhabited α] (less : α → α → Bool) (aIdx b : Nat) :
    Array α → Nat → Nat → Nat → Array α × Nat
  | xs, i, _, 0 => (xs, i)
  | xs, i, j, fuel+1 =>
    let i := scanUpEq less xs aIdx j i b
    let j := scanDownEq less xs aIdx i j b
    if i > j then (xs, i)
    else partEqMain less aIdx b (swapIx xs i j) (i+1) (j-1) fuel

/-- Go `partitionEqual_func(data, a, b, pivot)`: returns `(array, newpivot)`. -/
def partitionEqualA [Inhabited α] (less : α → α → Bool) (xs0 : Array α)
    (a b pivot : Nat) : Array α × Nat :=
  let xs := swapIx xs0 a pivot
  partEqMain less a b xs (a+1) (b-1) b

/-- Advance scan `for i < b && !data.Less(i, i-1) { i++ }` of
`partialInsertionSort_func`. -/
def pisAdvance [Inhabited α] (less : α → α → Bool) (b : Nat)
    (xs : Array α) : Nat → Nat → Nat
  | i, 0 => i
  | i, fuel+1 =>
    if i < b ∧ ¬ less (getIx xs i) (getIx xs (i-1)) then
      pisAdvance less b xs (i+1) fuel
    else i

/-- Left-shift loop of `partialInsertionSort_func`:
`for j := i - 1; j >= 1; j-- { if !Less(j, j-1) break; Swap(j, j-1) }`. -/
def pisShiftLeft [Inhabited α] (less : α → α → Bool) :
    Array α → Nat → Nat → Array α
  | xs, _, 0 => xs
  | xs, j, fuel+1 =>
    if 1 ≤ j ∧ less (getIx xs j) (getIx xs (j-1)) then
      pisShiftLeft less (swapIx xs j (j-1)) (j-1) fuel
    else xs

/-- Right-shift loop of `partialInsertionSort_func`:
`for j := i + 1; j < b; j++ { if !Less(j, j-1) break; Swap(j, j-1) }`. -/
def pisShiftRight [Inhabited α] (less : α → α → Bool) (b : Nat) :
    Array α → Nat → Nat → Array α
  | xs, _, 0 => xs
  | xs, j, fuel+1 =>
    if j < b ∧ less (getIx xs j) (getIx xs (j-1)) then
      pisShiftRight less b (swapIx xs j (j-1)) (j+1) fuel
    else xs

/-- Outer `maxSteps = 5` loop of `partialInsertionSort_func`
(`shortestShifting = 50`); returns `(array, sorted?)`. -/
def pisSteps [Inhabited α] (less : α → α → Bool) (a b : Nat) :
    Array α → Nat → Nat → Array α × Bool
  | xs, _, 0 => (xs, false)
  | xs, i, steps+1 =>
    let i := pisAdvance less b xs i b
    if i = b then (xs, true)
    else if b - a < 50 then (xs, false)
    else
      let xs := swapIx xs i (i-1)
      let xs := if i - a ≥ 2 then pisShiftLeft less xs (i-1) i else xs
      let xs := if b - i ≥ 2 then pisShiftRight less b xs (i+1) b else xs
      pisSteps less a b xs i steps

/-- Go `partialInsertionSort_func(data, a, b)`. -/
def partialInsertionSortA [Inhabited α] (less : α → α → Bool)
    (xs : Array α) (a b : Nat) : Array α × Bool :=
  pisSteps less a b xs (a+1) 5

/-- Pattern-defense prefix of one `pdqsort_func` loop iteration: the
`breakPatterns`/`limit--` step, pivot choice, `reverseRange` on a
decreasing hint, and the opportunistic `partialInsertionSort`. Returns the
mutated array, the remaining `limit`, the chosen pivot, and whether
`partialInsertionSort` already finished the range. -/
def pdqPrefix [Inhabited α] (less : α → α → Bool) (xs : Array α)
    (a b limit : Nat) (wasBalanced wasPartitioned : Bool) :
    Array α × Nat × Nat × Bool :=
  let xs := if ¬ wasBalanced then breakPatternsA xs a b else xs
  let limit := if ¬ wasBalanced then limit - 1 else limit
  let pv := choosePivotA less xs a b
  let xs := if pv.2 = SortHint.decreasing then reverseRangeA xs a b else xs
  let pivot :=
    if pv.2 = SortHint.decreasing then (b - 1) - (pv.1 - a) else pv.1
  let hint :=
    if pv.2 = SortHint.decreasing then SortHint.increasing else pv.2
  let pr :=
    if wasBalanced ∧ wasPartitioned ∧ hint = SortHint.increasing then
      partialInsertionSortA less xs a b
    else (xs, false)
  (pr.1, limit, pivot, pr.2)

/-- Main recursion of `pdqsort_func(data, a, b, limit)`; loop iterations and
recursive calls both consume fuel (`maxInsertion = 12`). Recursive calls
restart with `wasBalanced = wasPartitioned = true`, loop continuations keep
the current flags, exactly as the Go local variables do. -/
def pdqsortLoop [Inhabited α] (less : α → α → Bool) :
    Array α → Nat → Nat → Nat → Bool → Bool → Nat → Array α
  | xs, _, _, _, _, _, 0 => xs
  | xs, a, b, limit, wasBalanced, wasPartitioned, fuel+1 =>
    let length := b - a
    if length ≤ 12 then insertionSortA less xs a b
    else if limit = 0 then heapSortA less xs a b
    else
      let q := pdqPrefix less xs a b limit wasBalanced wasPartitioned
      let xs := q.1
      let limit := q.2.1
      let pivot := q.2.2.1
      if q.2.2.2 then xs
      else if 0 < a ∧ ¬ less (getIx xs (a-1)) (getIx xs pivot) then
        let pe := partitionEqualA less xs a b pivot
        pdqsortLoop less pe.1 pe.2 b limit wasBalanced wasPartitioned fuel
      else
        let pt := partitionA less xs a b pivot
        let mid := pt.2.1
        let wasPartitioned := pt.2.2
        let leftLen := mid - a
        let rightLen := b - mid
        let balanceThreshold := length / 8
        let wasBalanced : Bool :=
          decide (min leftLen rightLen ≥ balanceThreshold)
        if leftLen < rightLen then
          let xs := pdqsortLoop less pt.1 a mid limit true true fuel
          pdqsortLoop less xs (mid+1) b limit wasBalanced wasPartitioned fuel
        else
          let xs := pdqsortLoop less pt.1 (mid+1) b limit true true fuel
          pdqsortLoop less xs a mid limit wasBalanced wasPartitioned fuel

/-- Go `sort.Slice(x, less)`: `pdqsort_func(lessSwap, 0, len, bits.Len(len))`.
The fuel bounds the combined number of `pdqsort_func` loop iterations and
recursive calls: every non-terminal step strictly shrinks its range by at
least the pivot element, so at most `2n + 2` steps ever run. -/
def sortSliceBy [Inhabited α] (less : α → α → Bool) (l : List α) : List α :=
  let xs := l.toArray
  let n := xs.size
  (pdqsortLoop less xs 0 n (bitsLen n) true true (4 * (n + 2))).toList

/-! ### Issue snapshot and timeline events (`agent.go`)

`IssueSnapshot` is the decoded form of the `map[string]any` GraphQL issue
payload consumed by `buildHistoryTimeline`: `author` is the extracted
`author.login` (`""` when absent), a comment's `lastEditedAt` is `none` when
the field is absent or the empty string, and an actor/editor login is `""`
when missing — exactly the defaults the Go type assertions produce. -/

/-- The Go `TimelineEvent` struct; `data` is the `Data any` field, which in
this program is the comment body for `commented` events and `nil` for every
other kind. -/
structure TimelineEvent where
  type : String
  actor : String
  time : Timestamp
  data : Option String
deriving DecidableEq, Repr, Inhabited

/-- One decoded element of `comments.nodes`. -/
structure Comment where
  author : String
  body : String
  createdAt : Timestamp
  lastEditedAt : Option Timestamp
deriving DecidableEq, Repr

/-- One decoded element of `userContentEdits.nodes`. -/
structure ContentEdit where
  editor : String
  editedAt : Timestamp
deriving DecidableEq, Repr

/-- Decoded `__typename` discrimination of a `timelineItems` node; the
`labeled` case carries the decoded `label.name` (`""` when absent). -/
inductive TimelineItemKind where
  | labeled (labelName : String)
  | renamedTitle
  | reopened
deriving DecidableEq, Repr

/-- One decoded element of `timelineItems.nodes`. -/
structure TimelineItem where
  kind : TimelineItemKind
  actor : String
  createdAt : Timestamp
deriving DecidableEq, Repr

/-- Decoded per-issue GraphQL payload (author, createdAt, labels, comments,
description edits, filtered timeline items). -/
structure IssueSnapshot where
  author : String
  createdAt : Timestamp
  labels : List String
  comments : List Comment
  userContentEdits : List ContentEdit
  timelineItems : List TimelineItem
deriving DecidableEq, Repr

/-- Fold of the bot-alert timestamp in the comments loop:
`if lastBotAlertTime == nil || cTime.After(*lastBotAlertTime)` keep `cTime`. -/
def foldBotAlert (alert : Option Timestamp) (t : Timestamp) : Option Timestamp :=
  match alert with
  | none => some t
  | some u => if u < t then some t else some u

/-- The `commented` event the comments loop appends for comment `c`:
`Use edit time if available, otherwise creation time`. -/
def commentEvent (c : Comment) : TimelineEvent :=
  let actualTime :=
    match c.lastEditedAt with
    | some e => e
    | none => c.createdAt
  ⟨"commented", c.author, actualTime, some c.body⟩

/-- Comments loop of `buildHistoryTimeline` (step 2): signature-matching
comments are folded into the bot-alert timestamp and skipped; bot-like
commenters are skipped; every other comment emits a `commented` event in
source order. -/
def commentsPass : List Comment → Option Timestamp →
    List TimelineEvent × Option Timestamp
  | [], alert => ([], alert)
  | c :: rest, alert =>
    if strContains c.body BOT_ALERT_SIGNATURE then
      commentsPass rest (foldBotAlert alert c.createdAt)
    else if isBot c.author then
      commentsPass rest alert
    else
      let p := commentsPass rest alert
      (commentEvent c :: p.1, p.2)

/-- Description-edits loop of `buildHistoryTimeline` (step 3). -/
def editsPass : List ContentEdit → List TimelineEvent
  | [] => []
  | e :: rest =>
    if isBot e.editor then editsPass rest
    else ⟨"edited_description", e.editor, e.editedAt, none⟩ :: editsPass rest

/-- The `prettyType` selection in the timeline-items loop: `"reopened"`
unless the item is a `RenamedTitleEvent`. -/
def prettyType : TimelineItemKind → String
  | TimelineItemKind.renamedTitle => "renamed_title"
  | _ => "reopened"

/-- Timeline-items loop of `buildHistoryTimeline` (step 4): a `LabeledEvent`
is always `continue`d past (contributing its timestamp to `labelEvents`
exactly when the label is the stale label), and any other item emits an
event unless its actor is bot-like. -/
def itemsPass : List TimelineItem → List TimelineEvent × List Timestamp
  | [] => ([], [])
  | it :: rest =>
    let p := itemsPass rest
    match it.kind with
    | TimelineItemKind.labeled name =>
      if name == STALE_LABEL_NAME then (p.1, it.createdAt :: p.2) else p
    | k =>
      if isBot it.actor then p
      else (⟨prettyType k, it.actor, it.createdAt, none⟩ :: p.1, p.2)

/-- The synthetic baseline `created` event (step 1). -/
def createdEvent (s : IssueSnapshot) : TimelineEvent :=
  ⟨"created", s.author, s.createdAt, none⟩

/-- Comparison closure of the final `sort.Slice` call:
`history[i].Time.Before(history[j].Time)`. -/
def eventBefore (x y : TimelineEvent) : Bool :=
  decide (x.time < y.time)

/-- Go `buildHistoryTimeline(data)`: returns the chronologically sorted history,
the stale-label application timestamps, and the most recent prior bot-alert
timestamp. -/
def buildHistoryTimeline (s : IssueSnapshot) :
    List TimelineEvent × List Timestamp × Option Timestamp :=
  let cp := commentsPass s.comments none
  let editEvs := editsPass s.userContentEdits
  let ip := itemsPass s.timelineItems
  let history := createdEvent s :: (cp.1 ++ editEvs ++ ip.1)
  (sortSliceBy eventBefore history, ip.2, cp.2)

/-! ### State replay (`replayHistoryToFindState`) -/

/-- The Go `IssueState` struct. -/
structure IssueState where
  lastActionRole : String
  lastActivityTime : Timestamp
  lastActionType : String
  lastCommentText : Option String
  lastActorName : String
deriving DecidableEq, Repr

/-- Helper `isMaintainer(actor, maintainers)`: linear scan. -/
def isMaintainer (actor : String) : List String → Bool
  | [] => false
  | m :: rest => if actor == m then true else isMaintainer actor rest

/-- Loop body of `replayHistoryToFindState`: role classification and
unconditional overwrite; `lastCommentText` is set from a `commented`
event's string payload (kept unchanged if the payload is not a string,
mirroring the failed `Data.(string)` assertion) and reset to `nil` by every
other event kind. -/
def replayStep (maintainers : List String) (issueAuthor : String)
    (st : IssueState) (event : TimelineEvent) : IssueState :=
  let role :=
    if event.actor == issueAuthor then "author"
    else if isMaintainer event.actor maintainers then "maintainer"
    else "other_user"
  { lastActionRole := role
    lastActivityTime := event.time
    lastActionType := event.type
    lastActorName := event.actor
    lastCommentText :=
      if event.type == "commented" then
        match event.data with
        | some text => some text
        | none => st.lastCommentText
      else none }

/-- Go `replayHistoryToFindState(history, maintainers, issueAuthor)`. The Go
code indexes `history[0]` unconditionally (the builder guarantees a
nonempty history); on `[]`, where Go would panic, the initial state is
returned unchanged. -/
def replayHistoryToFindState (history : List TimelineEvent)
    (maintainers : List String) (issueAuthor : String) : IssueState :=
  match history with
  | [] => ⟨"author", 0, "created", none, issueAuthor⟩
  | h0 :: rest =>
    (h0 :: rest).foldl (replayStep maintainers issueAuthor)
      ⟨"author", h0.time, "created", none, issueAuthor⟩

/-! ### Issue analyzer (`getIssueState`) -/

/-- Day count `now.Sub(t).Hours() / 24.0`, exact in `ℚ` (instants are in
hours). -/
def daysBetween (t now : Timestamp) : ℚ :=
  ((now - t : Int) : ℚ) / 24

/-- The `errorResponse(msg)` payload `{"status": "error", "error": msg}`. -/
structure ErrorPayload where
  status : String
  error : String
deriving DecidableEq, Repr

/-- Go `errorResponse` from `agent.go`. -/
def errorResponse (msg : String) : ErrorPayload :=
  ⟨"error", msg⟩

/-- The success payload map returned by `getIssueState`. -/
structure FactSheet where
  status : String
  last_action_role : String
  last_action_type : String
  last_actor_name : String
  maintainer_alert_needed : Bool
  is_stale : Bool
  days_since_activity : ℚ
  days_since_stale_label : ℚ
  last_comment_text : Option String
  current_labels : List String
  stale_threshold_days : ℚ
  close_threshold_days : ℚ
  maintainers : List String
  issue_author : String
deriving DecidableEq, Repr

/-- Result of `getIssueState`: either the `errorResponse` map or the success
fact-sheet map. -/
inductive AnalyzerResult where
  | failed (payload : ErrorPayload)
  | ok (payload : FactSheet)
deriving DecidableEq, Repr

/-- The `latest` fold over `labelEvents`:
`latest := labelEvents[0]; for t { if t.After(latest) { latest = t } }`. -/
def latestOf (t0 : Timestamp) (ts : List Timestamp) : Timestamp :=
  ts.foldl (fun latest t => if latest < t then t else latest) t0

/-- Go `getIssueState(ctx, args)`: the two network inputs (cached-maintainer
lookup and GraphQL fetch) are passed as explicit results, and the single
`now := time.Now().UTC()` instant is a parameter. The second component of
the result is the Go `error` return value. -/
def getIssueState (maintainersResult : Except String (List String))
    (fetchResult : Except String IssueSnapshot) (now : Timestamp) :
    AnalyzerResult × Option String :=
  match maintainersResult with
  | Except.error e =>
    (AnalyzerResult.failed
      (errorResponse ("error getting cached maintainers: " ++ e)), none)
  | Except.ok maintainers =>
    match fetchResult with
    | Except.error e =>
      (AnalyzerResult.failed (errorResponse ("network error: " ++ e)), none)
    | Except.ok rawData =>
      let issueAuthor := rawData.author
      let labelsList := rawData.labels
      let built := buildHistoryTimeline rawData
      let labelEvents := built.2.1
      let lastBotAlertTime := built.2.2
      let state := replayHistoryToFindState built.1 maintainers issueAuthor
      let daysSinceActivity := daysBetween state.lastActivityTime now
      let isStale := labelsList.any (fun l => l == STALE_LABEL_NAME)
      let daysSinceStaleLabel :=
        match labelEvents with
        | [] => 0
        | t0 :: rest =>
          if isStale then daysBetween (latestOf t0 rest) now else 0
      let maintainerAlertNeeded :=
        if (state.lastActionRole == "author" ||
            state.lastActionRole == "other_user") &&
            state.lastActionType == "edited_description" then
          match lastBotAlertTime with
          | none => true
          | some t => decide (t < state.lastActivityTime)
        else false
      (AnalyzerResult.ok
        { status := "success"
          last_action_role := state.lastActionRole
          last_action_type := state.lastActionType
          last_actor_name := state.lastActorName
          maintainer_alert_needed := maintainerAlertNeeded
          is_stale := isStale
          days_since_activity := daysSinceActivity
          days_since_stale_label := daysSinceStaleLabel
          last_comment_text := state.lastCommentText
          current_labels := labelsList
          stale_threshold_days := STALE_HOURS_THRESHOLD / 24
          close_threshold_days := CLOSE_HOURS_AFTER_STALE_THRESHOLD / 24
          maintainers := maintainers
          issue_author := issueAuthor }, none)

/-! ### Maintainer directory (`getCachedMaintainers`) -/

/-- Minimal JSON value model for the dynamically typed (`any`) decoded
response bodies. -/
inductive Json where
  | null
  | bool (b : Bool)
  | num (q : ℚ)
  | str (s : String)
  | arr (items : List Json)
  | obj (fields : List (String × Json))
deriving Inhabited, Repr

/-- Collection loop of `getCachedMaintainers`: non-object items are skipped
(`continue`), and an object contributes its `login` field exactly when that
field is a string. -/
def collectLogins : List Json → List String
  | [] => []
  | Json.obj fields :: rest =>
    match fields.lookup "login" with
    | some (Json.str login) => login :: collectLogins rest
    | _ => collectLogins rest
  | _ :: rest => collectLogins rest

/-- Result of one `getCachedMaintainers` call: the cache state after the
call, the returned `([]string, error)` pair, and how many network fetches
the call performed. -/
structure CacheCallResult where
  cache : Option (List String)
  result : Except String (List String)
  fetches : Nat
deriving Repr

/-- Go `getCachedMaintainers()` with the package-level `maintainersCache`
(`nil` ⇔ `none`) threaded explicitly and the `GetRequest` outcome passed as
an oracle. A populated cache returns immediately; otherwise one fetch runs,
its data must be list-shaped, and the collected logins are stored (note a
successful fetch always stores, even an empty list — `make` yields a
non-`nil` slice). -/
def getCachedMaintainers (cache : Option (List String))
    (fetchResult : Except String Json) : CacheCallResult :=
  match cache with
  | some ms => ⟨some ms, Except.ok ms, 0⟩
  | none =>
    match fetchResult with
    | Except.error e =>
      ⟨none, Except.error ("maintainer verification failed: " ++ e), 1⟩
    | Except.ok data =>
      match data with
      | Json.arr rawList =>
        let maintainers := collectLogins rawList
        ⟨some maintainers, Except.ok maintainers, 1⟩
      | _ => ⟨none, Except.error "github API returned non-list data", 1⟩

/-! ### Remote client (`util.go`) -/

/-- Go `retryStatusCodes` from `util.go`. -/
def retryStatusCodes (code : Nat) : Bool :=
  code == 429 || code == 500 || code == 502 || code == 503 || code == 504

/-- Go `maxRetries` from `util.go`. -/
def maxRetries : Nat := 6

/-- Outcome of a single `httpClient.Do(req)` attempt: a response with a
status code and a decoded body, or a transport error. -/
structure HttpResCase where
  statusCode : Nat
  body : Except String Json
deriving Inhabited, Repr

/-- One attempt outcome (`resp, err := httpClient.Do(req)`). -/
inductive AttemptResult where
  | ok (r : HttpResCase)
  | err (e : String)
deriving Inhabited, Repr

/-- Go `decodeJSON(resp)`: read + unmarshal, modelled by the decoded body
carried on the response. -/
def decodeJSON (r : HttpResCase) : Except String Json :=
  r.body

/-- Retry loop of `doRequest`: `attempts` is the oracle giving the outcome
of each successive `httpClient.Do` call, `attempt` the Go loop counter and
`budget` the remaining retries (`maxRetries - attempt`). Returns the final
`(resp-or-error)` together with the number of attempts performed. A
response that is not a retry status returns immediately; otherwise the loop
breaks once `attempt == maxRetries`, surfacing the transport error of the
last attempt if any, else `request failed after retries`. -/
def doRequestLoop (attempts : Nat → AttemptResult) :
    Nat → Nat → Except String HttpResCase × Nat
  | attempt, 0 =>
    (match attempts attempt with
     | AttemptResult.ok r =>
       if retryStatusCodes r.statusCode then
         Except.error "request failed after retries"
       else Except.ok r
     | AttemptResult.err e => Except.error e, attempt + 1)
  | attempt, budget+1 =>
    match attempts attempt with
    | AttemptResult.ok r =>
      if retryStatusCodes r.statusCode then
        doRequestLoop attempts (attempt + 1) budget
      else (Except.ok r, attempt + 1)
    | AttemptResult.err _ => doRequestLoop attempts (attempt + 1) budget

/-- Go `doRequest(req)`. -/
def doRequest (attempts : Nat → AttemptResult) :
    Except String HttpResCase × Nat :=
  doRequestLoop attempts 0 maxRetries

/-- Shared tail of the four public request helpers: run the retry loop and
decode the body on success. -/
def requestTail (attempts : Nat → AttemptResult) : Except String Json × Nat :=
  match doRequest attempts with
  | (Except.ok r, n) => (decodeJSON r, n)
  | (Except.error e, n) => (Except.error e, n)

/-- Go `GetRequest(rawURL, params)` with the process-wide counter threaded:
`incrementAPICallCount()` runs first, unconditionally and exactly once.
Returns `(new counter, decoded result, attempts performed)`. -/
def GetRequest (counter : Nat) (attempts : Nat → AttemptResult) :
    Nat × Except String Json × Nat :=
  let counter := counter + 1
  (counter, requestTail attempts)

/-- Go `PostRequest(url, payload)`; the payload does not influence the counter
or retry behaviour. -/
def PostRequest (counter : Nat) (attempts : Nat → AttemptResult) :
    Nat × Except String Json × Nat :=
  let counter := counter + 1
  (counter, requestTail attempts)

/-- Go `PatchRequest(url, payload)`. -/
def PatchRequest (counter : Nat) (attempts : Nat → AttemptResult) :
    Nat × Except String Json × Nat :=
  let counter := counter + 1
  (counter, requestTail attempts)

/-- Go `DeleteRequest(url)`: a `204` success is normalized to the structured
success object instead of decoding the empty body. -/
def DeleteRequest (counter : Nat) (attempts : Nat → AttemptResult) :
    Nat × Except String Json × Nat :=
  let counter := counter + 1
  (counter,
    match doRequest attempts with
    | (Except.ok r, n) =>
      if r.statusCode == 204 then
        (Except.ok (Json.obj
          [("status", Json.str "success"),
           ("message", Json.str "Deletion successful.")]), n)
      else (decodeJSON r, n)
    | (Except.error e, n) => (Except.error e, n))

/-! ### Batch orchestrator chunking (`main`) -/

/-- The chunking loop of `main`:
`for i := 0; i < totalCount; i += ConcurrencyLimit` with
`end := min(i+limit, totalCount)`, `chunk := allIssues[i:end]`, and a pacing
sleep (counted here) whenever `end < totalCount`. The fuel is an upper
bound on the iteration count; `mainChunks` supplies `totalCount`, which
suffices for any positive concurrency limit. -/
def chunkLoop (allIssues : List Int) (limit : Nat) :
    Nat → Nat → List (List Int) × Nat
  | _, 0 => ([], 0)
  | i, fuel+1 =>
    let totalCount := allIssues.length
    if i < totalCount then
      let e := min (i + limit) totalCount
      let chunk := ((allIssues.drop i).take (e - i))
      let p := chunkLoop allIssues limit (i + limit) fuel
      (chunk :: p.1, (if e < totalCount then 1 else 0) + p.2)
    else ([], 0)

/-- The chunked processing of `main` over the fetched issue list: returns
the processed chunks in order and the number of inter-chunk pacing sleeps
performed. -/
def mainChunks (allIssues : List Int) (limit : Nat) :
    List (List Int) × Nat :=
  chunkLoop allIssues limit 0 allIssues.length

/-! ### The sort only permutes: every mutation is a swap -/

/-- Moving the `m`-th element of a list to the front while writing `a` into
its place is a permutation of putting `a` in front. -/
theorem getSetPermAux : ∀ (t : List α) (m : Nat) (a : α) (_ : m < t.length),
    List.Perm (t[m] :: t.set m a) (a :: t)
  | b :: t, 0, a, _ => by simpa using List.Perm.swap a b t
  | b :: t, m+1, a, h => by
    have hm : m < t.length := by simpa using h
    simp only [List.getElem_cons_succ, List.set_cons_succ]
    exact ((List.Perm.swap b (t[m]) (t.set m a)).trans
      (List.Perm.cons b (getSetPermAux t m a hm))).trans
      (List.Perm.swap a b t)

/-- Exchanging two positions of a list is a permutation. -/
theorem listSwapPerm : ∀ (l : List α) (i j : Nat) (_ : i < l.length)
    (_ : j < l.length), List.Perm ((l.set i l[j]).set j l[i]) l
  | a :: t, 0, 0, _, _ => by
    simp only [List.getElem_cons_zero, List.set_cons_zero]
    exact List.Perm.refl _
  | a :: t, 0, m+1, _, hj => by
    have hm : m < t.length := by simpa using hj
    simp only [List.getElem_cons_succ, List.set_cons_zero,
      List.getElem_cons_zero, List.set_cons_succ]
    exact getSetPermAux t m a hm
  | a :: t, n+1, 0, hi, _ => by
    have hn : n < t.length := by simpa using hi
    simp only [List.getElem_cons_succ, List.set_cons_zero,
      List.getElem_cons_zero, List.set_cons_succ]
    exact getSetPermAux t n a hn
  | a :: t, n+1, m+1, hi, hj => by
    have hn : n < t.length := by simpa using hi
    have hm : m < t.length := by simpa using hj
    simp only [List.getElem_cons_succ, List.set_cons_succ]
    exact List.Perm.cons a (listSwapPerm t n m hn hm)

/-- Go `swapIx` permutes the array's elements. -/
theorem swapIx_perm (xs : Array α) (i j : Nat) :
    List.Perm (swapIx xs i j).toList xs.toList := by
  unfold swapIx
  split
  · next h =>
    have hi : i < xs.toList.length := by
      simpa [Array.length_toList] using h.1
    have hj : j < xs.toList.length := by
      simpa [Array.length_toList] using h.2
    have e : (xs.swap ⟨i, h.1⟩ ⟨j, h.2⟩).toList
        = (xs.toList.set i xs.toList[j]).set j xs.toList[i] := by
      rw [Array.toList_swap]
      rw [Array.get_eq_getElem, Array.get_eq_getElem]
      rw [Array.getElem_eq_getElem_toList, Array.getElem_eq_getElem_toList]
    rw [e]
    exact listSwapPerm xs.toList i j hi hj
  · exact List.Perm.refl _

/-- Go `insInner` permutes. -/
theorem insInner_perm [Inhabited α] (less : α → α → Bool) (a : Nat) :
    ∀ (xs : Array α) (j fuel : Nat),
      List.Perm (insInner less a xs j fuel).toList xs.toList
  | xs, _, 0 => List.Perm.refl _
  | xs, j, fuel+1 => by
    rw [insInner]
    split
    · exact (insInner_perm less a _ _ fuel).trans (swapIx_perm ..)
    · exact List.Perm.refl _

/-- Go `insOuter` permutes. -/
theorem insOuter_perm [Inhabited α] (less : α → α → Bool) (a b : Nat) :
    ∀ (xs : Array α) (i fuel : Nat),
      List.Perm (insOuter less a b xs i fuel).toList xs.toList
  | xs, _, 0 => List.Perm.refl _
  | xs, i, fuel+1 => by
    rw [insOuter]
    split
    · exact (insOuter_perm less a b _ _ fuel).trans (insInner_perm ..)
    · exact List.Perm.refl _

/-- Go `insertionSortA` permutes. -/
theorem insertionSortA_perm [Inhabited α] (less : α → α → Bool)
    (xs : Array α) (a b : Nat) :
    List.Perm (insertionSortA less xs a b).toList xs.toList :=
  insOuter_perm ..

/-- Go `siftDownLoop` permutes. -/
theorem siftDownLoop_perm [Inhabited α] (less : α → α → Bool)
    (hi first : Nat) : ∀ (xs : Array α) (root fuel : Nat),
      List.Perm (siftDownLoop less hi first xs root fuel).toList xs.toList
  | xs, _, 0 => List.Perm.refl _
  | xs, root, fuel+1 => by
    rw [siftDownLoop]
    dsimp only
    split
    · exact List.Perm.refl _
    · split <;> split <;>
        first
          | exact List.Perm.refl _
          | exact (siftDownLoop_perm less hi first _ _ fuel).trans
              (swapIx_perm ..)

/-- Go `siftDownA` permutes. -/
theorem siftDownA_perm [Inhabited α] (less : α → α → Bool) (xs : Array α)
    (lo hi first : Nat) :
    List.Perm (siftDownA less xs lo hi first).toList xs.toList :=
  siftDownLoop_perm ..

/-- Go `heapBuildLoop` permutes. -/
theorem heapBuildLoop_perm [Inhabited α] (less : α → α → Bool)
    (hi first : Nat) : ∀ (xs : Array α) (i : Nat),
      List.Perm (heapBuildLoop less hi first xs i).toList xs.toList
  | _, 0 => siftDownA_perm ..
  | _, i+1 =>
    (heapBuildLoop_perm less hi first _ i).trans (siftDownA_perm ..)

/-- Go `heapPopLoop` permutes. -/
theorem heapPopLoop_perm [Inhabited α] (less : α → α → Bool) (first : Nat) :
    ∀ (xs : Array α) (i : Nat),
      List.Perm (heapPopLoop less first xs i).toList xs.toList
  | _, 0 => swapIx_perm ..
  | _, i+1 =>
    (heapPopLoop_perm less first _ i).trans
      ((siftDownA_perm ..).trans (swapIx_perm ..))

/-- Go `heapSortA` permutes. -/
theorem heapSortA_perm [Inhabited α] (less : α → α → Bool) (xs : Array α)
    (a b : Nat) : List.Perm (heapSortA less xs a b).toList xs.toList := by
  rw [heapSortA]
  split
  · exact heapBuildLoop_perm ..
  · exact (heapPopLoop_perm ..).trans (heapBuildLoop_perm ..)

/-- Go `reverseRangeLoop` permutes. -/
theorem reverseRangeLoop_perm :
    ∀ (xs : Array α) (i j fuel : Nat),
      List.Perm (reverseRangeLoop xs i j fuel).toList xs.toList
  | xs, _, _, 0 => List.Perm.refl _
  | xs, i, j, fuel+1 => by
    rw [reverseRangeLoop]
    split
    · exact (reverseRangeLoop_perm _ _ _ fuel).trans (swapIx_perm ..)
    · exact List.Perm.refl _

/-- Go `reverseRangeA` permutes. -/
theorem reverseRangeA_perm (xs : Array α) (a b : Nat) :
    List.Perm (reverseRangeA xs a b).toList xs.toList :=
  reverseRangeLoop_perm ..

/-- Go `breakPatternsA` permutes. -/
theorem breakPatternsA_perm (xs : Array α) (a b : Nat) :
    List.Perm (breakPatternsA xs a b).toList xs.toList := by
  rw [breakPatternsA]
  split
  · exact (swapIx_perm ..).trans ((swapIx_perm ..).trans (swapIx_perm ..))
  · exact List.Perm.refl _

/-- Go `partMain` permutes. -/
theorem partMain_perm [Inhabited α] (less : α → α → Bool) (aIdx b : Nat) :
    ∀ (xs : Array α) (i j fuel : Nat),
      List.Perm (partMain less aIdx b xs i j fuel).1.toList xs.toList
  | _, _, _, 0 => List.Perm.refl _
  | xs, i, j, fuel+1 => by
    rw [partMain]
    split
    · exact List.Perm.refl _
    · exact (partMain_perm less aIdx b _ _ _ fuel).trans (swapIx_perm ..)

/-- Go `partitionA` permutes. -/
theorem partitionA_perm [Inhabited α] (less : α → α → Bool) (xs0 : Array α)
    (a b pivot : Nat) :
    List.Perm (partitionA less xs0 a b pivot).1.toList xs0.toList := by
  rw [partitionA]
  split
  · exact (swapIx_perm ..).trans (swapIx_perm ..)
  · exact (swapIx_perm ..).trans
      ((partMain_perm ..).trans ((swapIx_perm ..).trans (swapIx_perm ..)))

/-- Go `partEqMain` permutes. -/
theorem partEqMain_perm [Inhabited α] (less : α → α → Bool) (aIdx b : Nat) :
    ∀ (xs : Array α) (i j fuel : Nat),
      List.Perm (partEqMain less aIdx b xs i j fuel).1.toList xs.toList
  | _, _, _, 0 => List.Perm.refl _
  | xs, i, j, fuel+1 => by
    rw [partEqMain]
    split
    · exact List.Perm.refl _
    · exact (partEqMain_perm less aIdx b _ _ _ fuel).trans (swapIx_perm ..)

/-- Go `partitionEqualA` permutes. -/
theorem partitionEqualA_perm [Inhabited α] (less : α → α → Bool)
    (xs0 : Array α) (a b pivot : Nat) :
    List.Perm (partitionEqualA less xs0 a b pivot).1.toList xs0.toList :=
  (partEqMain_perm ..).trans (swapIx_perm ..)

/-- Go `pisShiftLeft` permutes. -/
theorem pisShiftLeft_perm [Inhabited α] (less : α → α → Bool) :
    ∀ (xs : Array α) (j fuel : Nat),
      List.Perm (pisShiftLeft less xs j fuel).toList xs.toList
  | _, _, 0 => List.Perm.refl _
  | xs, _, fuel+1 => by
    rw [pisShiftLeft]
    split
    · exact (pisShiftLeft_perm less _ _ fuel).trans (swapIx_perm ..)
    · exact List.Perm.refl _

/-- Go `pisShiftRight` permutes. -/
theorem pisShiftRight_perm [Inhabited α] (less : α → α → Bool) (b : Nat) :
    ∀ (xs : Array α) (j fuel : Nat),
      List.Perm (pisShiftRight less b xs j fuel).toList xs.toList
  | _, _, 0 => List.Perm.refl _
  | xs, _, fuel+1 => by
    rw [pisShiftRight]
    split
    · exact (pisShiftRight_perm less b _ _ fuel).trans (swapIx_perm ..)
    · exact List.Perm.refl _

/-- Go `pisSteps` permutes. -/
theorem pisSteps_perm [Inhabited α] (less : α → α → Bool) (a b : Nat) :
    ∀ (xs : Array α) (i steps : Nat),
      List.Perm (pisSteps less a b xs i steps).1.toList xs.toList
  | _, _, 0 => List.Perm.refl _
  | xs, i, steps+1 => by
    rw [pisSteps]
    dsimp only
    split
    · exact List.Perm.refl _
    · split
      · exact List.Perm.refl _
      · refine (pisSteps_perm less a b _ _ steps).trans ?_
        split <;> split <;>
          first
            | exact (pisShiftRight_perm ..).trans
                ((pisShiftLeft_perm ..).trans (swapIx_perm ..))
            | exact (pisShiftLeft_perm ..).trans (swapIx_perm ..)
            | exact (pisShiftRight_perm ..).trans (swapIx_perm ..)
            | exact swapIx_perm ..

/-- Go `partialInsertionSortA` permutes. -/
theorem partialInsertionSortA_perm [Inhabited α] (less : α → α → Bool)
    (xs : Array α) (a b : Nat) :
    List.Perm (partialInsertionSortA less xs a b).1.toList xs.toList :=
  pisSteps_perm ..

/-- Go `pdqPrefix` permutes. -/
theorem pdqPrefix_perm [Inhabited α] (less : α → α → Bool) (xs : Array α)
    (a b limit : Nat) (wasBalanced wasPartitioned : Bool) :
    List.Perm
      (pdqPrefix less xs a b limit wasBalanced wasPartitioned).1.toList
      xs.toList := by
  rw [pdqPrefix]
  dsimp only
  split <;> split <;> split <;>
    first
      | exact List.Perm.refl _
      | exact breakPatternsA_perm ..
      | exact reverseRangeA_perm ..
      | exact (reverseRangeA_perm ..).trans (breakPatternsA_perm ..)
      | exact partialInsertionSortA_perm ..
      | exact (partialInsertionSortA_perm ..).trans (breakPatternsA_perm ..)
      | exact (partialInsertionSortA_perm ..).trans (reverseRangeA_perm ..)
      | exact (partialInsertionSortA_perm ..).trans
          ((reverseRangeA_perm ..).trans (breakPatternsA_perm ..))

/-- Go `pdqsortLoop` permutes. -/
theorem pdqsortLoop_perm [Inhabited α] (less : α → α → Bool) :
    ∀ (xs : Array α) (a b limit : Nat) (wasBalanced wasPartitioned : Bool)
      (fuel : Nat),
      List.Perm
        (pdqsortLoop less xs a b limit wasBalanced wasPartitioned fuel).toList
        xs.toList
  | _, _, _, _, _, _, 0 => List.Perm.refl _
  | xs, a, b, limit, wasBalanced, wasPartitioned, fuel+1 => by
    rw [pdqsortLoop]
    dsimp only
    split
    · exact insertionSortA_perm ..
    · split
      · exact heapSortA_perm ..
      · split
        · exact pdqPrefix_perm ..
        · split
          · exact (pdqsortLoop_perm less _ _ b _ _ _ fuel).trans
              ((partitionEqualA_perm ..).trans (pdqPrefix_perm ..))
          · split
            · exact (pdqsortLoop_perm less _ _ b _ _ _ fuel).trans
                ((pdqsortLoop_perm less _ a _ _ _ _ fuel).trans
                  ((partitionA_perm ..).trans (pdqPrefix_perm ..)))
            · exact (pdqsortLoop_perm less _ a _ _ _ _ fuel).trans
                ((pdqsortLoop_perm less _ _ b _ _ _ fuel).trans
                  ((partitionA_perm ..).trans (pdqPrefix_perm ..)))

/-- Go `sortSliceBy` returns a permutation of its input. -/
theorem sortSliceBy_perm [Inhabited α] (less : α → α → Bool) (l : List α) :
    List.Perm (sortSliceBy less l) l := by
  have h := pdqsortLoop_perm less l.toArray 0 l.toArray.size
    (bitsLen l.toArray.size) true true (4 * (l.toArray.size + 2))
  simpa [sortSliceBy] using h

/-! ### Characterization of the history builder's passes -/

/-- Observation: is a timeline item a `LabeledEvent`? -/
def isLabeledItem (it : TimelineItem) : Bool :=
  match it.kind with
  | TimelineItemKind.labeled _ => true
  | _ => false

/-- Observation: is a timeline item an application of the stale label? -/
def staleLabeledItem (it : TimelineItem) : Bool :=
  match it.kind with
  | TimelineItemKind.labeled name => name == STALE_LABEL_NAME
  | _ => false

/-- The event emitted for a non-label timeline item. -/
def itemEvent (it : TimelineItem) : TimelineEvent :=
  ⟨prettyType it.kind, it.actor, it.createdAt, none⟩

/-- The comments pass emits exactly the non-signature, non-bot comments, in
source order. -/
theorem commentsPass_events : ∀ (cs : List Comment) (alert : Option Timestamp),
    (commentsPass cs alert).1 =
      (cs.filter (fun c =>
        !(strContains c.body BOT_ALERT_SIGNATURE) && !(isBot c.author))).map
        commentEvent
  | [], _ => rfl
  | c :: rest, alert => by
    rw [commentsPass]
    by_cases h1 : strContains c.body BOT_ALERT_SIGNATURE
    · simp [h1, commentsPass_events rest]
    · by_cases h2 : isBot c.author
      · simp [h1, h2, commentsPass_events rest]
      · simp [h1, h2, commentsPass_events rest]

/-- The comments pass folds exactly the signature-matching timestamps into
the bot-alert accumulator. -/
theorem commentsPass_alert : ∀ (cs : List Comment) (alert : Option Timestamp),
    (commentsPass cs alert).2 =
      ((cs.filter (fun c => strContains c.body BOT_ALERT_SIGNATURE)).map
        Comment.createdAt).foldl foldBotAlert alert
  | [], _ => rfl
  | c :: rest, alert => by
    rw [commentsPass]
    by_cases h1 : strContains c.body BOT_ALERT_SIGNATURE
    · simp [h1, commentsPass_alert rest]
    · by_cases h2 : isBot c.author
      · simp [h1, h2, commentsPass_alert rest]
      · simp [h1, h2, commentsPass_alert rest]

/-- The edits pass emits exactly the non-bot description edits, in source
order. -/
theorem editsPass_events : ∀ (es : List ContentEdit),
    editsPass es = (es.filter (fun e => !(isBot e.editor))).map
      (fun e => ⟨"edited_description", e.editor, e.editedAt, none⟩)
  | [] => rfl
  | e :: rest => by
    rw [editsPass]
    by_cases h : isBot e.editor
    · simp [h, editsPass_events rest]
    · simp [h, editsPass_events rest]

/-- The timeline-items pass emits exactly the non-label, non-bot items. -/
theorem itemsPass_events : ∀ (its : List TimelineItem),
    (itemsPass its).1 =
      (its.filter (fun it => !(isLabeledItem it) && !(isBot it.actor))).map
        itemEvent
  | [] => rfl
  | it :: rest => by
    rw [itemsPass]
    rcases hk : it.kind with name | _ | _
    · by_cases h : name == STALE_LABEL_NAME <;>
        simp [hk, h, isLabeledItem, itemsPass_events rest]
    · by_cases h : isBot it.actor <;>
        simp [hk, h, isLabeledItem, itemEvent, itemsPass_events rest]
    · by_cases h : isBot it.actor <;>
        simp [hk, h, isLabeledItem, itemEvent, itemsPass_events rest]

/-- The timeline-items pass records exactly the stale-label application
timestamps. -/
theorem itemsPass_labels : ∀ (its : List TimelineItem),
    (itemsPass its).2 =
      (its.filter staleLabeledItem).map TimelineItem.createdAt
  | [] => rfl
  | it :: rest => by
    rw [itemsPass]
    rcases hk : it.kind with name | _ | _
    · by_cases h : name == STALE_LABEL_NAME <;>
        simp [hk, h, staleLabeledItem, itemsPass_labels rest]
    · by_cases h : isBot it.actor <;>
        simp [hk, h, staleLabeledItem, itemsPass_labels rest]
    · by_cases h : isBot it.actor <;>
        simp [hk, h, staleLabeledItem, itemsPass_labels rest]

/-- The built timeline is a permutation of the emitted events. -/
theorem buildHistoryTimeline_perm (s : IssueSnapshot) :
    List.Perm (buildHistoryTimeline s).1
      (createdEvent s :: ((commentsPass s.comments none).1 ++
        editsPass s.userContentEdits ++ (itemsPass s.timelineItems).1)) := by
  rw [buildHistoryTimeline]
  exact sortSliceBy_perm ..

/-- The auxiliary outputs of the builder are those of the passes. -/
theorem buildHistoryTimeline_aux (s : IssueSnapshot) :
    (buildHistoryTimeline s).2.1 = (itemsPass s.timelineItems).2 ∧
    (buildHistoryTimeline s).2.2 = (commentsPass s.comments none).2 :=
  ⟨rfl, rfl⟩

/-! ### Maximum folds -/

/-- One step of the bot-alert fold on a populated accumulator is `max`. -/
theorem foldBotAlert_some (x t : Timestamp) :
    foldBotAlert (some x) t = some (max x t) := by
  rw [foldBotAlert]
  by_cases h : x < t
  · simp [h, max_eq_right (le_of_lt h)]
  · simp [h, max_eq_left (le_of_not_lt h)]

/-- The bot-alert fold over a populated accumulator computes the running
maximum. -/
theorem foldBotAlert_foldl_some : ∀ (ts : List Timestamp) (x : Timestamp),
    ts.foldl foldBotAlert (some x) = some (ts.foldl max x)
  | [], _ => rfl
  | t :: rest, x => by
    simp [foldBotAlert_some, foldBotAlert_foldl_some rest]

/-- A left `max`-fold lands on a list element (or the start value). -/
theorem foldl_max_mem : ∀ (ts : List Timestamp) (x : Timestamp),
    ts.foldl max x = x ∨ ts.foldl max x ∈ ts
  | [], _ => Or.inl rfl
  | t :: rest, x => by
    rcases foldl_max_mem rest (max x t) with h | h
    · rcases max_choice x t with hc | hc
      · exact Or.inl (by rw [List.foldl_cons, h, hc])
      · exact Or.inr (by rw [List.foldl_cons, h, hc]; exact List.mem_cons_self ..)
    · exact Or.inr (List.mem_cons_of_mem _ h)

/-- A left `max`-fold bounds the start value and every element. -/
theorem foldl_max_ge : ∀ (ts : List Timestamp) (x : Timestamp),
    x ≤ ts.foldl max x ∧ ∀ u ∈ ts, u ≤ ts.foldl max x
  | [], x => ⟨le_refl x, by simp⟩
  | t :: rest, x => by
    obtain ⟨h1, h2⟩ := foldl_max_ge rest (max x t)
    refine ⟨le_trans (le_max_left x t) h1, ?_⟩
    intro u hu
    rcases List.mem_cons.mp hu with rfl | hu
    · exact le_trans (le_max_right x u) h1
    · exact h2 u hu

/-- The fold of the bot-alert accumulator starting from `none`: `none` iff
no timestamps, otherwise the maximum. -/
theorem foldBotAlert_none : ∀ (ts : List Timestamp),
    (ts = [] ∧ ts.foldl foldBotAlert none = none) ∨
    (∃ t, ts.foldl foldBotAlert none = some t ∧ t ∈ ts ∧ ∀ u ∈ ts, u ≤ t)
  | [] => Or.inl ⟨rfl, rfl⟩
  | t :: rest => by
    refine Or.inr ⟨rest.foldl max t, ?_, ?_, ?_⟩
    · simp [foldBotAlert, foldBotAlert_foldl_some rest]
    · rcases foldl_max_mem rest t with h | h
      · rw [h]; exact List.mem_cons_self ..
      · exact List.mem_cons_of_mem _ h
    · intro u hu
      rcases List.mem_cons.mp hu with rfl | hu
      · exact (foldl_max_ge rest u).1
      · exact (foldl_max_ge rest t).2 u hu

/-- Go `latestOf` computes the maximum of `t0 :: ts`. -/
theorem latestOf_eq_foldl_max (t0 : Timestamp) (ts : List Timestamp) :
    latestOf t0 ts = ts.foldl max t0 := by
  rw [latestOf]
  congr 1
  funext latest t
  by_cases h : latest < t
  · simp [h, max_eq_right (le_of_lt h)]
  · simp [h, max_eq_left (le_of_not_lt h)]

/-! ### Replay lemmas -/

/-- Replaying a nonempty history ends with a `replayStep` on the final
event. -/
theorem replay_concat (pre : List TimelineEvent) (e : TimelineEvent)
    (ms : List String) (author : String) :
    ∃ st, replayHistoryToFindState (pre ++ [e]) ms author =
      replayStep ms author st e := by
  cases pre with
  | nil => exact ⟨_, rfl⟩
  | cons h0 rest =>
    refine ⟨(h0 :: rest).foldl (replayStep ms author)
      ⟨"author", h0.time, "created", none, author⟩, ?_⟩
    rw [List.cons_append, replayHistoryToFindState]
    rw [← List.cons_append, List.foldl_append]
    simp

/-- C8: after the replay fold, `last_comment_text` is the final event's
comment body when that final event is a `commented` event (carrying a
string payload, as every `commented` event built by this program does), and
is `none` whenever the final event is of any other kind: an earlier
`commented` event never leaks its text past a later non-comment event. -/
theorem replay_last_comment_text (pre : List TimelineEvent)
    (e : TimelineEvent) (ms : List String) (author : String) :
    (e.type = "commented" → ∀ b, e.data = some b →
      (replayHistoryToFindState (pre ++ [e]) ms author).lastCommentText =
        some b) ∧
    (e.type ≠ "commented" →
      (replayHistoryToFindState (pre ++ [e]) ms author).lastCommentText =
        none) := by
  obtain ⟨st, hst⟩ := replay_concat pre e ms author
  rw [hst]
  constructor
  · intro ht b hb
    simp [replayStep, ht, hb]
  · intro ht
    simp [replayStep, ht]

/-- Witness for C8: a comment after a creation event surfaces its body; a
description edit after a comment clears it. -/
theorem replay_last_comment_text_witness :
    (replayHistoryToFindState
      [⟨"created", "alice", 0, none⟩, ⟨"commented", "bob", 1, some "hi"⟩]
      [] "alice").lastCommentText = some "hi" ∧
    (replayHistoryToFindState
      [⟨"commented", "bob", 1, some "hi"⟩,
       ⟨"edited_description", "alice", 2, none⟩]
      [] "alice").lastCommentText = none := by
  constructor
  · exact (replay_last_comment_text [⟨"created", "alice", 0, none⟩]
      ⟨"commented", "bob", 1, some "hi"⟩ [] "alice").1 rfl "hi" rfl
  · exact (replay_last_comment_text [⟨"commented", "bob", 1, some "hi"⟩]
      ⟨"edited_description", "alice", 2, none⟩ [] "alice").2 (by decide)

/-! ### Analyzer theorems -/

/-- C1: the fact sheet's `maintainer_alert_needed` is true iff the replayed
last action's role is `author` or `other_user`, its kind is
`edited_description`, and either no prior bot-alert timestamp was recorded
or the recorded one is strictly before the last activity timestamp. -/
theorem getIssueState_maintainer_alert_iff (ms : List String)
    (s : IssueSnapshot) (now : Timestamp) :
    ∃ p, (getIssueState (Except.ok ms) (Except.ok s) now).1 =
        AnalyzerResult.ok p ∧
      (p.maintainer_alert_needed = true ↔
        (((replayHistoryToFindState (buildHistoryTimeline s).1 ms
              s.author).lastActionRole = "author" ∨
          (replayHistoryToFindState (buildHistoryTimeline s).1 ms
              s.author).lastActionRole = "other_user") ∧
         (replayHistoryToFindState (buildHistoryTimeline s).1 ms
              s.author).lastActionType = "edited_description" ∧
         ((buildHistoryTimeline s).2.2 = none ∨
          ∃ t, (buildHistoryTimeline s).2.2 = some t ∧
            t < (replayHistoryToFindState (buildHistoryTimeline s).1 ms
              s.author).lastActivityTime))) := by
  refine ⟨_, rfl, ?_⟩
  dsimp only
  by_cases h : ((replayHistoryToFindState (buildHistoryTimeline s).1 ms
        s.author).lastActionRole == "author" ||
      (replayHistoryToFindState (buildHistoryTimeline s).1 ms
        s.author).lastActionRole == "other_user") &&
      ((replayHistoryToFindState (buildHistoryTimeline s).1 ms
        s.author).lastActionType == "edited_description")
  · rw [if_pos h]
    simp only [Bool.and_eq_true, Bool.or_eq_true, beq_iff_eq] at h
    cases hb : (buildHistoryTimeline s).2.2 with
    | none => simp [h, hb]
    | some t =>
      simp only [decide_eq_true_eq]
      constructor
      · intro hlt
        exact ⟨h.1, h.2, Or.inr ⟨t, rfl, hlt⟩⟩
      · rintro ⟨-, -, hc | ⟨u, hu, hlt⟩⟩
        · exact absurd hc (by simp)
        · cases Option.some_injective _ hu
          exact hlt
  · rw [if_neg h]
    simp only [Bool.and_eq_true, Bool.or_eq_true, beq_iff_eq] at h
    constructor
    · intro hfalse
      exact absurd hfalse (by simp)
    · rintro ⟨h1, h2, -⟩
      exact absurd ⟨h1, h2⟩ h

/-- C4: `days_since_stale_label` is `0` when the stale label is absent from
the current label set or no stale-label timestamp was recorded, and is
otherwise `(now − max recorded timestamp)` in days, for the single `now` of
the analysis call. -/
theorem getIssueState_days_since_stale_label (ms : List String)
    (s : IssueSnapshot) (now : Timestamp) :
    ∃ p, (getIssueState (Except.ok ms) (Except.ok s) now).1 =
        AnalyzerResult.ok p ∧
      ((STALE_LABEL_NAME ∉ s.labels ∨ (buildHistoryTimeline s).2.1 = []) →
        p.days_since_stale_label = 0) ∧
      (∀ M, STALE_LABEL_NAME ∈ s.labels → M ∈ (buildHistoryTimeline s).2.1 →
        (∀ t ∈ (buildHistoryTimeline s).2.1, t ≤ M) →
        p.days_since_stale_label = daysBetween M now) := by
  refine ⟨_, rfl, ?_, ?_⟩
  · intro habs
    dsimp only
    cases hl : (buildHistoryTimeline s).2.1 with
    | nil => rfl
    | cons t0 rest =>
      rcases habs with habs | habs
      · have : (s.labels.any fun l => l == STALE_LABEL_NAME) = false := by
          simp only [List.any_eq_false, beq_iff_eq]
          intro x hx he
          exact habs (he ▸ hx)
        rw [this]
        simp
      · rw [habs] at hl
        cases hl
  · intro M hmem hM hub
    dsimp only
    cases hl : (buildHistoryTimeline s).2.1 with
    | nil => rw [hl] at hM; cases hM
    | cons t0 rest =>
      have hstale : (s.labels.any fun l => l == STALE_LABEL_NAME) = true := by
        simp only [List.any_eq_true, beq_iff_eq]
        exact ⟨STALE_LABEL_NAME, hmem, rfl⟩
      rw [hstale]
      simp only [if_true]
      have hMl : M ∈ t0 :: rest := by rw [← hl]; exact hM
      have hubl : ∀ t ∈ t0 :: rest, t ≤ M := by
        intro t ht
        exact hub t (by rw [hl]; exact ht)
      have hle : latestOf t0 rest ≤ M := by
        rw [latestOf_eq_foldl_max]
        rcases foldl_max_mem rest t0 with h | h
        · rw [h]; exact hubl t0 (List.mem_cons_self ..)
        · exact hubl _ (List.mem_cons_of_mem _ h)
      have hge : M ≤ latestOf t0 rest := by
        rw [latestOf_eq_foldl_max]
        rcases List.mem_cons.mp hMl with rfl | hMr
        · exact (foldl_max_ge rest M).1
        · exact (foldl_max_ge rest t0).2 M hMr
      rw [le_antisymm hle hge]

/-- Witness for C1: a silent description edit by the author with no prior
bot alert yields `maintainer_alert_needed = true`. -/
theorem getIssueState_maintainer_alert_iff_witness :
    ∃ p, (getIssueState (Except.ok [])
        (Except.ok { author := "alice", createdAt := 0, labels := []
                     comments := [], userContentEdits := [⟨"alice", 5⟩]
                     timelineItems := [] }) 10).1 = AnalyzerResult.ok p ∧
      p.maintainer_alert_needed = true := by
  obtain ⟨p, hp, hiff⟩ := getIssueState_maintainer_alert_iff []
    { author := "alice", createdAt := 0, labels := []
      comments := [], userContentEdits := [⟨"alice", 5⟩]
      timelineItems := [] } 10
  exact ⟨p, hp, hiff.mpr ⟨Or.inl (by decide!), by decide!, Or.inl (by decide!)⟩⟩

/-- Witness for C4: with recorded stale-label timestamps `{2, 5}` and
`now = 10`, the day count uses the maximum `5`. -/
theorem getIssueState_days_since_stale_label_witness :
    ∃ p, (getIssueState (Except.ok [])
        (Except.ok { author := "alice", createdAt := 0, labels := ["stale"]
                     comments := [], userContentEdits := []
                     timelineItems :=
                       [⟨TimelineItemKind.labeled "stale", "adk-bot", 2⟩,
                        ⟨TimelineItemKind.labeled "stale", "adk-bot", 5⟩] })
        10).1 = AnalyzerResult.ok p ∧
      p.days_since_stale_label = daysBetween 5 10 := by
  obtain ⟨p, hp, -, hmax⟩ := getIssueState_days_since_stale_label []
    { author := "alice", createdAt := 0, labels := ["stale"]
      comments := [], userContentEdits := []
      timelineItems := [⟨TimelineItemKind.labeled "stale", "adk-bot", 2⟩,
                        ⟨TimelineItemKind.labeled "stale", "adk-bot", 5⟩] } 10
  exact ⟨p, hp, hmax 5 (by decide!) (by decide!) (by decide!)⟩

/-- C5: `getIssueState` never surfaces a Go error to its caller; when the
maintainer lookup or the issue fetch fails it returns the structured
`{status: "error", error: reason}` payload with a `nil` error instead. -/
theorem getIssueState_never_errors (mr : Except String (List String))
    (fr : Except String IssueSnapshot) (now : Timestamp) :
    (getIssueState mr fr now).2 = none ∧
    (∀ e, mr = Except.error e → (getIssueState mr fr now).1 =
      AnalyzerResult.failed
        (errorResponse ("error getting cached maintainers: " ++ e))) ∧
    (∀ ms e, mr = Except.ok ms → fr = Except.error e →
      (getIssueState mr fr now).1 =
        AnalyzerResult.failed (errorResponse ("network error: " ++ e))) ∧
    (∀ msg, (errorResponse msg).status = "error" ∧
      (errorResponse msg).error = msg) := by
  refine ⟨?_, ?_, ?_, fun msg => ⟨rfl, rfl⟩⟩
  · cases mr with
    | error e => rfl
    | ok ms =>
      cases fr with
      | error e => rfl
      | ok s => rfl
  · rintro e rfl
    rfl
  · rintro ms e rfl rfl
    rfl

/-- Witness for C5: both failure modes at concrete inputs. -/
theorem getIssueState_never_errors_witness :
    (getIssueState (Except.error "boom")
      (Except.error "net") 0).2 = none ∧
    (getIssueState (Except.error "boom") (Except.error "net") 0).1 =
      AnalyzerResult.failed
        ⟨"error", "error getting cached maintainers: boom"⟩ ∧
    (getIssueState (Except.ok ["m"]) (Except.error "net") 0).1 =
      AnalyzerResult.failed ⟨"error", "network error: net"⟩ := by
  refine ⟨(getIssueState_never_errors (Except.error "boom")
      (Except.error "net") 0).1, ?_, ?_⟩
  · exact (getIssueState_never_errors (Except.error "boom")
      (Except.error "net") 0).2.1 "boom" rfl
  · exact (getIssueState_never_errors (Except.ok ["m"])
      (Except.error "net") 0).2.2.1 ["m"] "net" rfl rfl

/-! ### Maintainer-cache and remote-client theorems -/

/-- C7: after a successful first call populates the cache, a second call
returns the identical cached list with no further fetch, so the two calls
perform exactly one fetch in total. -/
theorem getCachedMaintainers_idempotent (f1 f2 : Except String Json)
    (ms : List String)
    (h : (getCachedMaintainers none f1).result = Except.ok ms) :
    (getCachedMaintainers none f1).cache = some ms ∧
    (getCachedMaintainers
      ((getCachedMaintainers none f1).cache) f2).result = Except.ok ms ∧
    (getCachedMaintainers
      ((getCachedMaintainers none f1).cache) f2).cache = some ms ∧
    (getCachedMaintainers none f1).fetches = 1 ∧
    (getCachedMaintainers
      ((getCachedMaintainers none f1).cache) f2).fetches = 0 := by
  cases f1 with
  | error e => simp [getCachedMaintainers] at h
  | ok data =>
    cases data with
    | arr rawList =>
      have hms : collectLogins rawList = ms := by
        simpa [getCachedMaintainers] using h
      subst hms
      exact ⟨rfl, rfl, rfl, rfl, rfl⟩
    | null => simp [getCachedMaintainers] at h
    | bool b => simp [getCachedMaintainers] at h
    | num q => simp [getCachedMaintainers] at h
    | str s => simp [getCachedMaintainers] at h
    | obj fields => simp [getCachedMaintainers] at h

/-- Witness for C7: a one-collaborator listing is fetched once and then
served from the cache. -/
theorem getCachedMaintainers_idempotent_witness :
    (getCachedMaintainers none
      (Except.ok (Json.arr [Json.obj [("login", Json.str "alice")]]))).cache
        = some ["alice"] ∧
    (getCachedMaintainers
      ((getCachedMaintainers none
        (Except.ok (Json.arr [Json.obj [("login", Json.str "alice")]]))).cache)
      (Except.error "down")).result = Except.ok ["alice"] ∧
    (getCachedMaintainers none
      (Except.ok (Json.arr [Json.obj [("login", Json.str "alice")]]))).fetches
        = 1 ∧
    (getCachedMaintainers
      ((getCachedMaintainers none
        (Except.ok (Json.arr [Json.obj [("login", Json.str "alice")]]))).cache)
      (Except.error "down")).fetches = 0 := by
  obtain ⟨h1, h2, h3, h4, h5⟩ := getCachedMaintainers_idempotent
    (Except.ok (Json.arr [Json.obj [("login", Json.str "alice")]]))
    (Except.error "down") ["alice"] rfl
  exact ⟨h1, h2, h4, h5⟩

/-- C9: every logical request (GET, POST, PATCH, DELETE) increments the
API-call counter exactly once regardless of outcome and independently of
the internal retry attempts: a retryable first attempt followed by a
non-retryable success yields the decoded success after exactly 2 attempts
with the counter incremented once. -/
theorem requests_count_once (counter : Nat)
    (attempts : Nat → AttemptResult) :
    (GetRequest counter attempts).1 = counter + 1 ∧
    (PostRequest counter attempts).1 = counter + 1 ∧
    (PatchRequest counter attempts).1 = counter + 1 ∧
    (DeleteRequest counter attempts).1 = counter + 1 ∧
    (∀ r0 r1 : HttpResCase,
      attempts 0 = AttemptResult.ok r0 →
      retryStatusCodes r0.statusCode = true →
      attempts 1 = AttemptResult.ok r1 →
      retryStatusCodes r1.statusCode = false →
      (GetRequest counter attempts).2 = (decodeJSON r1, 2)) := by
  refine ⟨rfl, rfl, rfl, rfl, ?_⟩
  intro r0 r1 h0 hr0 h1 hr1
  have hdr : doRequest attempts = (Except.ok r1, 2) := by
    rw [doRequest, show maxRetries = 5 + 1 from rfl, doRequestLoop, h0]
    simp only [hr0, if_true]
    rw [show (5 : Nat) = 4 + 1 from rfl, doRequestLoop, h1]
    simp [hr1]
  simp [GetRequest, requestTail, hdr]

/-- Witness for C9: a 503 then a 200 carrying a JSON body. -/
theorem requests_count_once_witness :
    (GetRequest 7 (fun n => if n = 0 then AttemptResult.ok ⟨503, Except.ok Json.null⟩
      else AttemptResult.ok ⟨200, Except.ok (Json.str "ok")⟩)).1 = 8 ∧
    (GetRequest 7 (fun n => if n = 0 then AttemptResult.ok ⟨503, Except.ok Json.null⟩
      else AttemptResult.ok ⟨200, Except.ok (Json.str "ok")⟩)).2 =
      (Except.ok (Json.str "ok"), 2) := by
  obtain ⟨hg, -, -, -, hs⟩ := requests_count_once 7
    (fun n => if n = 0 then AttemptResult.ok ⟨503, Except.ok Json.null⟩
      else AttemptResult.ok ⟨200, Except.ok (Json.str "ok")⟩)
  exact ⟨hg, hs ⟨503, Except.ok Json.null⟩ ⟨200, Except.ok (Json.str "ok")⟩
    rfl rfl rfl rfl⟩

/-! ### Builder theorems on bot alerts and label events -/

/-- C3: a comment whose body matches the bot-alert signature never surfaces
as a `commented` event in the built timeline (whatever its author): every
`commented` event's payload is the body of a non-matching comment. The
returned prior-bot-alert timestamp is `none` exactly when no comment
matches, and otherwise is the maximum of the matching comments'
timestamps. -/
theorem builder_bot_alert_comments (s : IssueSnapshot) :
    (∀ ev ∈ (buildHistoryTimeline s).1, ev.type = "commented" →
      ∀ b, ev.data = some b → strContains b BOT_ALERT_SIGNATURE = false) ∧
    ((buildHistoryTimeline s).2.2 = none ↔
      s.comments.filter (fun c => strContains c.body BOT_ALERT_SIGNATURE)
        = []) ∧
    (∀ t, (buildHistoryTimeline s).2.2 = some t →
      t ∈ (s.comments.filter
        (fun c => strContains c.body BOT_ALERT_SIGNATURE)).map
          Comment.createdAt ∧
      ∀ u ∈ (s.comments.filter
        (fun c => strContains c.body BOT_ALERT_SIGNATURE)).map
          Comment.createdAt, u ≤ t) := by
  have halert : (buildHistoryTimeline s).2.2 =
      ((s.comments.filter
        (fun c => strContains c.body BOT_ALERT_SIGNATURE)).map
          Comment.createdAt).foldl foldBotAlert none :=
    (buildHistoryTimeline_aux s).2.trans (commentsPass_alert s.comments none)
  refine ⟨?_, ?_⟩
  · intro ev hev htype b hb
    have hmem := ((buildHistoryTimeline_perm s).mem_iff).mp hev
    rcases List.mem_cons.mp hmem with rfl | hmem
    · exact absurd htype (by simp [createdEvent])
    · rcases List.mem_append.mp hmem with hmem | hitems
      · rcases List.mem_append.mp hmem with hcomm | hedit
        · rw [commentsPass_events] at hcomm
          obtain ⟨c, hc, rfl⟩ := List.mem_map.mp hcomm
          have hflt := List.of_mem_filter hc
          simp only [Bool.and_eq_true, Bool.not_eq_true'] at hflt
          have : b = c.body := by
            have hb2 := hb
            simp only [commentEvent] at hb2
            exact (Option.some_injective _ hb2).symm
          rw [this]
          exact hflt.1
        · rw [editsPass_events] at hedit
          obtain ⟨e, -, rfl⟩ := List.mem_map.mp hedit
          exact absurd htype (by simp)
      · rw [itemsPass_events] at hitems
        obtain ⟨it, -, rfl⟩ := List.mem_map.mp hitems
        refine absurd htype ?_
        rcases hk : it.kind with name | _ | _ <;>
          simp [itemEvent, prettyType, hk]
  · rcases foldBotAlert_none ((s.comments.filter
        (fun c => strContains c.body BOT_ALERT_SIGNATURE)).map
          Comment.createdAt) with ⟨hnil, hnone⟩ | ⟨t0, hsome, hm, hub⟩
    · constructor
      · rw [halert, hnone]
        simp only [true_iff]
        exact List.map_eq_nil_iff.mp hnil
      · intro t ht
        rw [halert, hnone] at ht
        cases ht
    · constructor
      · rw [halert, hsome]
        constructor
        · intro hc
          cases hc
        · intro hc
          rw [hc] at hm
          cases hm
      · intro t ht
        rw [halert, hsome] at ht
        cases ht
        exact ⟨hm, hub⟩

/-- Concrete snapshot for the C3 witness: one bot-alert comment at time 3,
one ordinary comment at time 5. -/
def c3snap : IssueSnapshot :=
  { author := "alice", createdAt := 0, labels := []
    comments :=
      [⟨"adk-bot",
        "**Notification:** The author has updated the issue description. Maintainers, please review.",
        3, none⟩,
       ⟨"bob", "hi", 5, none⟩]
    userContentEdits := [], timelineItems := [] }

/-- Witness for C3: the ordinary comment's body does not match the
signature, and the matching comment's timestamp is the recorded maximum. -/
theorem builder_bot_alert_comments_witness :
    strContains "hi" BOT_ALERT_SIGNATURE = false ∧
    (3 : Int) ∈ ((c3snap.comments.filter
      (fun c => strContains c.body BOT_ALERT_SIGNATURE)).map
        Comment.createdAt) := by
  have h := builder_bot_alert_comments c3snap
  refine ⟨h.1 ⟨"commented", "bob", 5, some "hi"⟩ (by decide!) rfl "hi" rfl, ?_⟩
  exact (h.2.2 3 (by decide!)).1

/-- C10: label-application timeline items never become activity events,
whoever the actor and whatever the label: the built timeline's events are
exactly the creation event, the comment events, the edit events and the
non-label item events, while the recorded stale timestamps are exactly
those of stale-label applications — a non-stale label application is
discarded entirely. -/
theorem builder_label_items_excluded (s : IssueSnapshot) :
    (itemsPass s.timelineItems).1 =
      (s.timelineItems.filter
        (fun it => !(isLabeledItem it) && !(isBot it.actor))).map itemEvent ∧
    (buildHistoryTimeline s).2.1 =
      (s.timelineItems.filter staleLabeledItem).map TimelineItem.createdAt ∧
    List.Perm (buildHistoryTimeline s).1
      (createdEvent s :: ((commentsPass s.comments none).1 ++
        editsPass s.userContentEdits ++
        (s.timelineItems.filter
          (fun it => !(isLabeledItem it) && !(isBot it.actor))).map
            itemEvent)) := by
  refine ⟨itemsPass_events s.timelineItems, ?_, ?_⟩
  · exact (buildHistoryTimeline_aux s).1.trans
      (itemsPass_labels s.timelineItems)
  · have h := buildHistoryTimeline_perm s
    rwa [itemsPass_events s.timelineItems] at h

/-! ### Batch-orchestrator chunking theorems -/

/-- Ceiling-division step: one chunk of size `limit` removed. -/
theorem ceilDiv_step (r limit : Nat) (hl : 0 < limit) (hr : 0 < r) :
    (r + limit - 1) / limit = ((r - limit) + limit - 1) / limit + 1 := by
  rcases Nat.le_total r limit with h | h
  · have hlhs : (r + limit - 1) / limit = 1 := by
      have e : r + limit - 1 = (r - 1) + limit := by omega
      rw [e, Nat.add_div_right _ hl, Nat.div_eq_of_lt (by omega)]
    have hrhs : ((r - limit) + limit - 1) / limit = 0 := by
      have e : (r - limit) + limit - 1 = limit - 1 := by omega
      rw [e]
      exact Nat.div_eq_of_lt (by omega)
    rw [hlhs, hrhs]
  · have e : r + limit - 1 = ((r - limit) + limit - 1) + limit := by omega
    rw [e, Nat.add_div_right _ hl]

/-- Full invariant of the chunking loop, by induction on the fuel. -/
theorem chunkLoop_spec (allIssues : List Int) (limit : Nat)
    (hl : 0 < limit) :
    ∀ (fuel i : Nat), allIssues.length - i ≤ fuel →
      (chunkLoop allIssues limit i fuel).1.flatten = allIssues.drop i ∧
      (chunkLoop allIssues limit i fuel).1.length =
        ((allIssues.length - i) + limit - 1) / limit ∧
      (∀ ch ∈ (chunkLoop allIssues limit i fuel).1,
        ch ≠ [] ∧ ch.length ≤ limit) ∧
      (∀ ch ∈ (chunkLoop allIssues limit i fuel).1.dropLast,
        ch.length = limit) ∧
      (chunkLoop allIssues limit i fuel).2 =
        (chunkLoop allIssues limit i fuel).1.length - 1
  | 0, i, hfuel => by
    have hin : allIssues.length ≤ i := by omega
    rw [chunkLoop]
    refine ⟨(List.drop_eq_nil_of_le hin).symm, ?_, by simp, by simp, rfl⟩
    have h0 : allIssues.length - i = 0 := by omega
    rw [h0, Nat.zero_add, Nat.div_eq_of_lt (by omega)]
    rfl
  | fuel+1, i, hfuel => by
    rw [chunkLoop]
    dsimp only
    by_cases hi : i < allIssues.length
    · rw [if_pos hi]
      have hfuel2 : allIssues.length - (i + limit) ≤ fuel := by omega
      obtain ⟨ihflat, ihlen, ihmem, ihlast, ihsleep⟩ :=
        chunkLoop_spec allIssues limit hl fuel (i + limit) hfuel2
      have hk : min (i + limit) allIssues.length - i =
          min limit (allIssues.length - i) := by omega
      have hchunklen :
          ((allIssues.drop i).take (min (i + limit) allIssues.length - i)).length
            = min limit (allIssues.length - i) := by
        rw [hk]
        simp only [List.length_take, List.length_drop]
        omega
      have hchunk :
          (allIssues.drop i).take (min (i + limit) allIssues.length - i)
            = (allIssues.drop i).take limit := by
        rw [hk]
        rcases Nat.le_total limit (allIssues.length - i) with h | h
        · rw [min_eq_left h]
        · rw [min_eq_right h]
          rw [List.take_of_length_le (by simp [List.length_drop]),
            List.take_of_length_le (by simp [List.length_drop]; omega)]
      refine ⟨?_, ?_, ?_, ?_, ?_⟩
      · rw [List.flatten_cons, ihflat, hchunk]
        rw [← List.drop_drop]
        exact List.take_append_drop ..
      · rw [List.length_cons, ihlen]
        rw [show allIssues.length - (i + limit)
          = (allIssues.length - i) - limit by omega]
        exact (ceilDiv_step (allIssues.length - i) limit hl (by omega)).symm
      · intro ch hch
        rcases List.mem_cons.mp hch with rfl | hch
        · constructor
          · intro hnil
            have := congrArg List.length hnil
            rw [hchunklen] at this
            simp at this
            omega
          · rw [hchunklen]
            exact min_le_left ..
        · exact ihmem ch hch
      · intro ch hch
        by_cases hrest : (chunkLoop allIssues limit (i + limit) fuel).1 = []
        · rw [hrest] at hch
          simp at hch
        · rw [List.dropLast_cons_of_ne_nil hrest] at hch
          rcases List.mem_cons.mp hch with rfl | hch
          · rw [hchunklen]
            have hlen0 : (chunkLoop allIssues limit (i + limit) fuel).1.length
                ≠ 0 := by
              intro h0
              exact hrest (List.eq_nil_of_length_eq_zero h0)
            rw [ihlen] at hlen0
            have hrem : 0 < allIssues.length - (i + limit) := by
              by_contra hc
              have h0 : allIssues.length - (i + limit) = 0 := by omega
              rw [h0, Nat.zero_add, Nat.div_eq_of_lt (by omega)] at hlen0
              exact hlen0 rfl
            omega
          · exact ihlast ch hch
      · have hflag : (if min (i + limit) allIssues.length
            < allIssues.length then 1 else 0)
            = (if i + limit < allIssues.length then 1 else 0) := by
          by_cases h : i + limit < allIssues.length
          · rw [if_pos h, if_pos (by omega)]
          · rw [if_neg h, if_neg (by omega)]
        by_cases h : i + limit < allIssues.length
        · have hrem : 0 < allIssues.length - (i + limit) := by omega
          have hlenpos :
              0 < (chunkLoop allIssues limit (i + limit) fuel).1.length := by
            rw [ihlen]
            exact Nat.div_pos (by omega) hl
          rw [hflag, if_pos h, ihsleep, List.length_cons]
          omega
        · have h0 : allIssues.length - (i + limit) = 0 := by omega
          have hlen0 : (chunkLoop allIssues limit (i + limit) fuel).1.length
              = 0 := by
            rw [ihlen, h0, Nat.zero_add, Nat.div_eq_of_lt (by omega)]
          rw [hflag, if_neg h, ihsleep, hlen0, List.length_cons]
          omega
    · rw [if_neg hi]
      have hin : allIssues.length ≤ i := by omega
      refine ⟨(List.drop_eq_nil_of_le hin).symm, ?_, by simp, by simp, rfl⟩
      have h0 : allIssues.length - i = 0 := by omega
      rw [h0, Nat.zero_add, Nat.div_eq_of_lt (by omega)]
      rfl

/-- C6: for a nonempty issue list of length `n` and concurrency limit
`c > 0`, the orchestrator partitions the list into exactly
`⌈n / c⌉ = (n + c - 1) / c` consecutive chunks — each nonempty, of size `c`
except a possibly smaller final chunk — and sleeps the pacing interval
exactly once per chunk except after the last. -/
theorem mainChunks_spec (allIssues : List Int) (limit : Nat)
    (_hne : allIssues ≠ []) (hl : 0 < limit) :
    (mainChunks allIssues limit).1.flatten = allIssues ∧
    (mainChunks allIssues limit).1.length =
      (allIssues.length + limit - 1) / limit ∧
    (∀ ch ∈ (mainChunks allIssues limit).1, ch ≠ [] ∧ ch.length ≤ limit) ∧
    (∀ ch ∈ (mainChunks allIssues limit).1.dropLast, ch.length = limit) ∧
    (mainChunks allIssues limit).2 = (mainChunks allIssues limit).1.length - 1
    := by
  obtain ⟨h1, h2, h3, h4, h5⟩ :=
    chunkLoop_spec allIssues limit hl allIssues.length 0 (by omega)
  rw [mainChunks]
  exact ⟨by simpa using h1, by simpa using h2, h3, h4, h5⟩

/-- Witness for C6: 7 issues with limit 3 produce chunks `3, 3, 1` and
exactly 2 pacing sleeps. -/
theorem mainChunks_spec_witness :
    (mainChunks [1, 2, 3, 4, 5, 6, 7] 3).1 = [[1, 2, 3], [4, 5, 6], [7]] ∧
    (mainChunks [1, 2, 3, 4, 5, 6, 7] 3).2 = 2 ∧
    (mainChunks [1, 2, 3, 4, 5, 6, 7] 3).1.length = (7 + 3 - 1) / 3 := by
  refine ⟨by decide, by decide, ?_⟩
  exact (mainChunks_spec [1, 2, 3, 4, 5, 6, 7] 3 (by decide) (by decide)).2.1

/-! ### The final sort is not stable: concrete evaluation -/

/-- Failing input for the stable-sort claim: the issue is created at
instant 5 and carries twelve human comments at instants
1, 1, 2, 2, 3, 5, 6, 7, 8, 9, 9, 4 — thirteen events in total, putting the
history beyond the insertion-sort regime (length ≤ 12) of the stdlib
pdqsort into its partitioning path. -/
def unstableSnap : IssueSnapshot :=
  { author := "alice"
    createdAt := 5
    labels := []
    comments :=
      [ ⟨"u1", "c1", 1, none⟩, ⟨"u2", "c2", 1, none⟩, ⟨"u3", "c3", 2, none⟩
      , ⟨"u4", "c4", 2, none⟩, ⟨"u5", "c5", 3, none⟩, ⟨"u6", "c6", 5, none⟩
      , ⟨"u7", "c7", 6, none⟩, ⟨"u8", "c8", 7, none⟩, ⟨"u9", "c9", 8, none⟩
      , ⟨"u10", "c10", 9, none⟩, ⟨"u11", "c11", 9, none⟩
      , ⟨"u12", "c12", 4, none⟩ ]
    userContentEdits := []
    timelineItems := [] }

set_option maxRecDepth 100000 in
/-- C2 (evaluation at the failing input): the builder emits the `created`
event at instant 5 first (position 0) and the comment by `u6` at the same
instant 5 later (position 6), yet the built timeline — sorted with Go's
`sort.Slice`, which is not stable — places the `u6` comment (position 6)
strictly before the `created` event (position 7). Two events sharing a
timestamp thus appear in the opposite of their emission order, contradicting
the claimed stable tie-breaking; with `sort.SliceStable` the `created`
event would have stayed first. -/
theorem buildHistoryTimeline_unstable_eval :
    (createdEvent unstableSnap :: ((commentsPass unstableSnap.comments none).1
        ++ editsPass unstableSnap.userContentEdits
        ++ (itemsPass unstableSnap.timelineItems).1)) =
      [ ⟨"created", "alice", 5, none⟩
      , ⟨"commented", "u1", 1, some "c1"⟩, ⟨"commented", "u2", 1, some "c2"⟩
      , ⟨"commented", "u3", 2, some "c3"⟩, ⟨"commented", "u4", 2, some "c4"⟩
      , ⟨"commented", "u5", 3, some "c5"⟩, ⟨"commented", "u6", 5, some "c6"⟩
      , ⟨"commented", "u7", 6, some "c7"⟩, ⟨"commented", "u8", 7, some "c8"⟩
      , ⟨"commented", "u9", 8, some "c9"⟩, ⟨"commented", "u10", 9, some "c10"⟩
      , ⟨"commented", "u11", 9, some "c11"⟩
      , ⟨"commented", "u12", 4, some "c12"⟩ ] ∧
    (buildHistoryTimeline unstableSnap).1 =
      [ ⟨"commented", "u1", 1, some "c1"⟩, ⟨"commented", "u2", 1, some "c2"⟩
      , ⟨"commented", "u3", 2, some "c3"⟩, ⟨"commented", "u4", 2, some "c4"⟩
      , ⟨"commented", "u5", 3, some "c5"⟩, ⟨"commented", "u12", 4, some "c12"⟩
      , ⟨"commented", "u6", 5, some "c6"⟩, ⟨"created", "alice", 5, none⟩
      , ⟨"commented", "u7", 6, some "c7"⟩, ⟨"commented", "u8", 7, some "c8"⟩
      , ⟨"commented", "u9", 8, some "c9"⟩, ⟨"commented", "u10", 9, some "c10"⟩
      , ⟨"commented", "u11", 9, some "c11"⟩ ] := by
  constructor
  · decide!
  · decide!
